import Mathlib

/-!
Verification of the camunda-process-test orchestration harness.

Shallow embedding of the parts of the source relevant to the verified
properties:

* `BaseAssert.waitUntil` (polling primitive with adaptive backoff),
* `CamundaProcessTestContext.waitUntil` (simple polling helper),
* `CamundaProcessTestContext.cleanupTestData` (cancel-then-delete cleanup),
* `JobWorkerMock` (single-shot job worker mock dispatcher),
* `CamundaContainer.isPartitionReady` (topology readiness predicate),
* `ContainerRuntimePropertiesUtil` (configuration layering),
* `DecisionInstanceAssert.hasResultContaining` (partial result matching).

Machine integers are modelled as `Nat`/`Int` (JS numbers in the source stay
well inside the safe-integer range on these code paths), fallible paths
return explicit result constructors, and asynchronous loops are modelled as
deterministic state machines driven by a trace of predicate/job outcomes.
-/

namespace BaseAssert

/-- Outcome of one evaluation of the polled condition in
`BaseAssert.waitUntil`: the condition either returns a boolean or throws. -/
inductive PredOutcome
  | ok (b : Bool)
  | err
deriving DecidableEq, Repr

/-- One loop iteration as observed from outside: the outcome of the
condition call and how many milliseconds the call took
(`operationDuration = Date.now() - operationStartTime`). -/
structure PollIter where
  outcome : PredOutcome
  duration : Nat
deriving DecidableEq, Repr

/-- Configuration of a `BaseAssert.waitUntil` call: `this.timeout` (ms, an
arbitrary JS number, so `Int`), base `this.interval` (ms) and the
human-readable condition description. -/
structure WaitConfig where
  timeout : Int
  interval : Nat
  description : String
deriving DecidableEq, Repr

/-- The mutable loop state of `BaseAssert.waitUntil`:
`elapsed = Date.now() - startTime`, `currentInterval`, `consecutiveErrors`. -/
structure WaitState where
  elapsed : Nat
  currentInterval : Nat
  consecutiveErrors : Nat
deriving DecidableEq, Repr

/-- How a `waitUntil` run ends: the condition returned `true`; the loop
guard expired and the timeout error was thrown; an exception escaped the
loop; or the supplied outcome trace was exhausted while the loop was still
live. -/
inductive WaitResult
  | success
  | timeoutFailure (description : String) (timeoutMs : Int)
  | raised
  | exhausted
deriving DecidableEq, Repr

/-- The timeout error message thrown at the end of `BaseAssert.waitUntil`:
`Timeout waiting for <description> after <timeout>ms`. -/
def timeoutMessage (description : String) (timeoutMs : Int) : String :=
  "Timeout waiting for " ++ description ++ " after " ++ toString timeoutMs ++ "ms"

/-- The `currentInterval` value after the `try`/`catch` of one iteration
(source lines 36-49): reset to the base interval when the condition
returned, `min(interval * 2^consecutiveErrors', 5000)` after the
`consecutiveErrors++` of the `catch` branch. -/
def updatedInterval (interval : Nat) (st : WaitState) : PredOutcome → Nat
  | .ok _ => interval
  | .err => Nat.min (interval * 2 ^ (st.consecutiveErrors + 1)) 5000

/-- The `consecutiveErrors` value after the `try`/`catch` of one iteration. -/
def updatedErrors (st : WaitState) : PredOutcome → Nat
  | .ok _ => 0
  | .err => st.consecutiveErrors + 1

/-- The sleep performed at the end of one iteration:
`remainingInterval = Math.max(0, currentInterval - operationDuration)`
(natural subtraction is exactly `max 0` of the integer difference). -/
def iterSleep (interval : Nat) (st : WaitState) (o : PredOutcome) (d : Nat) : Nat :=
  updatedInterval interval st o - d

/-- State after one full non-returning iteration of the `waitUntil` loop:
the condition ran for `d` ms with outcome `o`, then the loop slept for the
remaining interval. -/
def stepState (interval : Nat) (st : WaitState) (o : PredOutcome) (d : Nat) : WaitState :=
  { elapsed := st.elapsed + d + iterSleep interval st o d
    currentInterval := updatedInterval interval st o
    consecutiveErrors := updatedErrors st o }

/-- Everything observable about a finished (or trace-exhausted) run:
its result, the loop state at exit, and how many times the condition was
evaluated. -/
structure RunOutput where
  result : WaitResult
  finalState : WaitState
  evals : Nat
deriving DecidableEq, Repr

/-- The loop of `BaseAssert.waitUntil`, driven by a trace of condition
outcomes. The guard `Date.now() - startTime < this.timeout` is checked
before each iteration; on expiry the timeout error is thrown. A `true`
outcome returns immediately (no sleep). A `false` outcome resets the
backoff state; a thrown outcome is swallowed by the `catch` and backs the
interval off. -/
def waitUntilRun (cfg : WaitConfig) : List PollIter → WaitState → RunOutput
  | [], st =>
    if (st.elapsed : Int) < cfg.timeout then ⟨.exhausted, st, 0⟩
    else ⟨.timeoutFailure cfg.description cfg.timeout, st, 0⟩
  | it :: rest, st =>
    if (st.elapsed : Int) < cfg.timeout then
      match it.outcome with
      | .ok true =>
        ⟨.success, { st with elapsed := st.elapsed + it.duration }, 1⟩
      | .ok false =>
        let r := waitUntilRun cfg rest (stepState cfg.interval st (.ok false) it.duration)
        ⟨r.result, r.finalState, r.evals + 1⟩
      | .err =>
        let r := waitUntilRun cfg rest (stepState cfg.interval st .err it.duration)
        ⟨r.result, r.finalState, r.evals + 1⟩
    else
      ⟨.timeoutFailure cfg.description cfg.timeout, st, 0⟩

/-- Initial loop state: nothing elapsed, `currentInterval = this.interval`,
no consecutive errors. -/
def initState (cfg : WaitConfig) : WaitState :=
  ⟨0, cfg.interval, 0⟩

/-- The `BaseAssert.waitUntil`, run against a trace of condition outcomes. -/
def waitUntil (cfg : WaitConfig) (iters : List PollIter) : RunOutput :=
  waitUntilRun cfg iters (initState cfg)

end BaseAssert

namespace CamundaProcessTestContext

open BaseAssert (PredOutcome PollIter WaitResult)

/-- JS `x || d` for an optional numeric option: `undefined` and the falsy
number `0` both fall back to the default. Models
`options.timeout || 10000` and `options.interval || 100`. -/
def jsNumOrDefault (v : Option Int) (dflt : Int) : Int :=
  match v with
  | none => dflt
  | some n => if n = 0 then dflt else n

/-- Effective timeout of `CamundaProcessTestContext.waitUntil`. -/
def effTimeout (optTimeout : Option Int) : Int :=
  jsNumOrDefault optTimeout 10000

/-- Effective interval of `CamundaProcessTestContext.waitUntil`. -/
def effInterval (optInterval : Option Int) : Int :=
  jsNumOrDefault optInterval 100

/-- Observable output of a `CamundaProcessTestContext.waitUntil` run. -/
structure CtxRunOutput where
  result : WaitResult
  evals : Nat
  finalElapsed : Nat
deriving DecidableEq, Repr

/-- The loop of `CamundaProcessTestContext.waitUntil`: no `try`/`catch`
(a throwing condition propagates, `.raised`), and the full `interval` is
slept after every unsuccessful check (no duration compensation). -/
def waitUntilRun (timeout : Int) (interval : Int) :
    List PollIter → Nat → CtxRunOutput
  | [], elapsed =>
    if (elapsed : Int) < timeout then ⟨.exhausted, 0, elapsed⟩
    else ⟨.timeoutFailure "Condition not met" timeout, 0, elapsed⟩
  | it :: rest, elapsed =>
    if (elapsed : Int) < timeout then
      match it.outcome with
      | .ok true => ⟨.success, 1, elapsed + it.duration⟩
      | .ok false =>
        let r := waitUntilRun timeout interval rest (elapsed + it.duration + interval.toNat)
        ⟨r.result, r.evals + 1, r.finalElapsed⟩
      | .err => ⟨.raised, 1, elapsed + it.duration⟩
    else
      ⟨.timeoutFailure "Condition not met" timeout, 0, elapsed⟩

/-- The `CamundaProcessTestContext.waitUntil` with its option defaulting
(`timeout = options.timeout || 10000`, `interval = options.interval || 100`). -/
def waitUntil (optTimeout optInterval : Option Int) (iters : List PollIter) : CtxRunOutput :=
  waitUntilRun (effTimeout optTimeout) (effInterval optInterval) iters 0

end CamundaProcessTestContext

namespace JobWorkerMock

/-- The five terminal configuration methods of `JobWorkerMock`. Each pushes
one behavior onto `this.handlers` and (except `doNothing`, which lacks the
`this.start()` call) starts the worker. -/
inductive TerminalCall
  | thenComplete
  | thenThrowError
  | thenThrowBpmnError
  | withHandler
  | doNothing
deriving DecidableEq, Repr

/-- Actions driving a `JobWorkerMock` instance: a terminal configuration
call, the arrival of a job of the mock's task type (delivered by the
engine client to the registered worker, carrying whether the configured
behavior throws when invoked on it), or a call to the public `stop()`. -/
inductive MockAction
  | config (c : TerminalCall)
  | jobArrive (jobId : Nat) (handlerThrows : Bool)
  | stopCall
deriving DecidableEq, Repr

/-- Events observable at the engine-client boundary and on the mock's
promises. -/
inductive MockEvent
  | registerWorker (maxJobsToActivate : Nat)
  | stopUnderlyingWorker
  | invokeBehavior (jobId : Nat)
  | resolveFinish (promiseId : Nat)
deriving DecidableEq, Repr

/-- State of a `JobWorkerMock`: the queued handlers, the `isStarted` flag,
whether the underlying engine worker is currently accepting work
(`workerActive`, cleared by any `stop()` on the worker handle), the
`maxJobsToActivate` values of all `createJobWorker` registrations, the
`handlerIndex` counter, the promise id currently stored in `this.finish`,
how many promises have been created, and which promise ids have been
resolved. -/
structure MockState where
  handlers : List TerminalCall
  isStarted : Bool
  workerActive : Bool
  registrations : List Nat
  handlerIndex : Nat
  finish : Option Nat
  promisesCreated : Nat
  resolvedPromises : List Nat
deriving DecidableEq, Repr

/-- A fresh `JobWorkerMock`. -/
def initMock : MockState :=
  ⟨[], false, false, [], 0, none, 0, []⟩

/-- The `private start()`: a no-op when `isStarted`; otherwise registers a
worker via `createJobWorker` with `maxJobsToActivate: 1` and marks the
mock started. -/
def startOp (st : MockState) : MockState × List MockEvent :=
  if st.isStarted then (st, [])
  else
    ({ st with isStarted := true
               workerActive := true
               handlerIndex := 0
               registrations := st.registrations ++ [1] },
     [.registerWorker 1])

/-- A terminal configuration call: pushes the behavior, calls `start()`
(except `doNothing`, whose body lacks that call), then creates a new
promise whose resolver overwrites `this.finish`. -/
def configOp (st : MockState) (c : TerminalCall) : MockState × List MockEvent :=
  let st1 := { st with handlers := st.handlers ++ [c] }
  let started := if c = .doNothing then (st1, []) else startOp st1
  let p := started.1.promisesCreated
  ({ started.1 with finish := some p, promisesCreated := p + 1 }, started.2)

/-- The `jobHandler` passed to `createJobWorker`: first `this.worker?.stop()`
(de-register before anything else), then invoke
`this.handlers[handlerIndex % this.handlers.length]`; on success
`handlerIndex++` and `this.finish?.()`; if the behavior throws, the job is
failed, `handlerIndex++`, and `this.finish` is not called. -/
def handleJob (st : MockState) (jobId : Nat) (handlerThrows : Bool) :
    MockState × List MockEvent :=
  let st1 := { st with workerActive := false }
  if handlerThrows then
    ({ st1 with handlerIndex := st1.handlerIndex + 1 },
     [.stopUnderlyingWorker, .invokeBehavior jobId])
  else
    match st1.finish with
    | some p =>
      ({ st1 with handlerIndex := st1.handlerIndex + 1
                  resolvedPromises := st1.resolvedPromises ++ [p] },
       [.stopUnderlyingWorker, .invokeBehavior jobId, .resolveFinish p])
    | none =>
      ({ st1 with handlerIndex := st1.handlerIndex + 1 },
       [.stopUnderlyingWorker, .invokeBehavior jobId])

/-- Delivery of a job by the engine client: the registered worker receives
it only while it is accepting work (it stops claiming jobs once `stop()`
has been called on it). -/
def jobArriveOp (st : MockState) (jobId : Nat) (handlerThrows : Bool) :
    MockState × List MockEvent :=
  if st.workerActive then handleJob st jobId handlerThrows else (st, [])

/-- The public `stop()`: `if (this.worker && this.isStarted)` stop the
worker and clear `isStarted`. (`this.worker` exists exactly when a
registration has happened, which `isStarted = true` implies.) -/
def stopOp (st : MockState) : MockState × List MockEvent :=
  if st.isStarted then
    ({ st with workerActive := false, isStarted := false }, [.stopUnderlyingWorker])
  else (st, [])

/-- One action against the mock. -/
def mockStep (st : MockState) : MockAction → MockState × List MockEvent
  | .config c => configOp st c
  | .jobArrive jobId handlerThrows => jobArriveOp st jobId handlerThrows
  | .stopCall => stopOp st

/-- Run a list of actions, collecting the emitted events. -/
def mockRunFrom (st : MockState) (acc : List MockEvent) :
    List MockAction → MockState × List MockEvent
  | [] => (st, acc)
  | a :: rest =>
    let r := mockStep st a
    mockRunFrom r.1 (acc ++ r.2) rest

/-- Run a list of actions against a fresh `JobWorkerMock`. -/
def mockRun (as : List MockAction) : MockState × List MockEvent :=
  mockRunFrom initMock [] as

/-- Number of behavior invocations (units of work handled) in a trace. -/
def countInvoke (evs : List MockEvent) : Nat :=
  evs.countP (fun e => match e with | .invokeBehavior _ => true | _ => false)

/-- The `invokesCovered seen evs` holds when every behavior invocation in `evs`
is preceded by a stop of the underlying worker (`seen` records whether a
stop has already occurred). -/
def invokesCovered : Bool → List MockEvent → Bool
  | _, [] => true
  | seen, .invokeBehavior _ :: rest => seen && invokesCovered seen rest
  | _, .stopUnderlyingWorker :: rest => invokesCovered true rest
  | seen, _ :: rest => invokesCovered seen rest

/-- Whether a trace contains a stop of the underlying worker. -/
def hasStop (evs : List MockEvent) : Bool :=
  evs.any (fun e => match e with | .stopUnderlyingWorker => true | _ => false)

/-- The single-shot invariant threaded through a mock run: an active worker
implies a started mock; a not-yet-started mock or an active worker means no
behavior has been invoked yet; at most one behavior invocation has
happened; and every invocation in the trace is preceded by a stop of the
underlying worker. -/
def MockInv (st : MockState) (acc : List MockEvent) : Prop :=
  (st.workerActive = true → st.isStarted = true)
  ∧ (st.isStarted = false → countInvoke acc = 0)
  ∧ (st.workerActive = true → countInvoke acc = 0)
  ∧ countInvoke acc ≤ 1
  ∧ invokesCovered false acc = true

/-- The completion-promise invariant: `this.finish` stores the resolver of
promise `q` and only promise `q` has ever been resolved. -/
def FinishInv (q : Nat) (st : MockState) : Prop :=
  st.finish = some q ∧ ∀ p ∈ st.resolvedPromises, p = q

end JobWorkerMock

namespace CamundaProcessTestContext

/-- The resource kinds of a `TrackedResource`. -/
inductive ResourceType
  | processDefinition
  | decisionDefinition
  | decisionRequirementsDefinition
  | form
deriving DecidableEq, Repr

/-- The `TrackedResource` from `CamundaProcessTestContext`. -/
structure TrackedResource where
  filePath : String
  key : String
  type : ResourceType
deriving DecidableEq, Repr

/-- Engine calls issued during `cleanupTestData`, in order. -/
inductive CleanupEvent
  | stopWorker (workerIdx : Nat)
  | cancelProcessInstance (processInstanceKey : String)
  | deleteResource (resourceKey : String)
deriving DecidableEq, Repr

/-- The `cleanupTrackedProcessInstances`: one `cancelProcessInstance` attempt
per tracked instance, in iteration order; failures are caught and
collected, so every instance is attempted. (The early return on an empty
set issues no calls, which coincides with the map over the empty list.) -/
def cleanupTrackedProcessInstances (trackedProcessInstances : List String) :
    List CleanupEvent :=
  trackedProcessInstances.map .cancelProcessInstance

/-- The `cleanupTrackedResources`: for each tracked resource, a polling
operation issues one or more `deleteResource` attempts (`retries r` extra
attempts beyond the first); failures are caught and collected. -/
def cleanupTrackedResources (trackedResources : List TrackedResource)
    (retries : String → Nat) : List CleanupEvent :=
  trackedResources.flatMap
    (fun r => List.replicate (retries r.key + 1) (.deleteResource r.key))

/-- The `cleanupTestData`: stop all job workers, then cancel tracked process
instances, then delete tracked resources — each phase awaited before the
next starts. -/
def cleanupTestData (jobWorkers : Nat) (trackedProcessInstances : List String)
    (trackedResources : List TrackedResource) (retries : String → Nat) :
    List CleanupEvent :=
  (List.range jobWorkers).map .stopWorker
    ++ cleanupTrackedProcessInstances trackedProcessInstances
    ++ cleanupTrackedResources trackedResources retries

end CamundaProcessTestContext

namespace CamundaContainer

/-- The `String.prototype.includes` on character lists: `pat` occurs as a
contiguous substring. -/
def listContainsSub (pat : List Char) : List Char → Bool
  | [] => pat.isEmpty
  | c :: rest => pat.isPrefixOf (c :: rest) || listContainsSub pat rest

/-- JS `s.includes(pat)`. -/
def strIncludes (s pat : String) : Bool :=
  listContainsSub pat.data s.data

/-- The `CamundaContainer.isPartitionReady` exactly as written in the source,
including its parenthesization: the no-space `"partitionId":1` test is a
bare disjunct, so it alone decides readiness; the role and health tests
only constrain the spaced `"partitionId": 1` variant. -/
def isPartitionReady (response : String) : Bool :=
  strIncludes response "\"partitionId\":1" ||
    (strIncludes response "\"partitionId\": 1" &&
      (strIncludes response "\"role\":\"leader\"" ||
        strIncludes response "\"role\": \"leader\"") &&
      (strIncludes response "\"health\":\"healthy\"" ||
        strIncludes response "\"health\": \"healthy\""))

end CamundaContainer

namespace ContainerRuntimePropertiesUtil

/-- A `ConfigurationProperty` entry of `CAMUNDA_RUNTIME_CONFIGURATION`. -/
structure ConfigurationProperty where
  jsonKey : String
  envKey : String
  defaultValue : String
  useVersionResolver : Bool
deriving DecidableEq, Repr

/-- The recognized configuration keys. -/
inductive ConfigKey
  | camundaVersion
  | camundaDockerImageName
  | camundaDockerImageVersion
  | connectorsDockerImageName
  | connectorsDockerImageVersion
  | runtimeMode
deriving DecidableEq, Repr

/-- The `CAMUNDA_RUNTIME_CONFIGURATION` from `CamundaRuntimeConfigurationMap.ts`. -/
def CAMUNDA_RUNTIME_CONFIGURATION : ConfigKey → ConfigurationProperty
  | .camundaVersion =>
    ⟨"camundaVersion", "CAMUNDA_DOCKER_IMAGE_VERSION", "SNAPSHOT", true⟩
  | .camundaDockerImageName =>
    ⟨"camundaDockerImageName", "CAMUNDA_DOCKER_IMAGE_NAME", "camunda/camunda", false⟩
  | .camundaDockerImageVersion =>
    ⟨"camundaDockerImageVersion", "CAMUNDA_DOCKER_IMAGE_VERSION", "SNAPSHOT", true⟩
  | .connectorsDockerImageName =>
    ⟨"connectorsDockerImageName", "CONNECTORS_DOCKER_IMAGE_NAME",
      "camunda/connectors-bundle", false⟩
  | .connectorsDockerImageVersion =>
    ⟨"connectorsDockerImageVersion", "CONNECTORS_DOCKER_IMAGE_VERSION", "SNAPSHOT", true⟩
  | .runtimeMode =>
    ⟨"runtimeMode", "CAMUNDA_RUNTIME_MODE", "MANAGED", false⟩

/-- Whether a `'\x7d'` (closing brace) occurs before any newline; `.` in the
placeholder regex does not match newlines. -/
def closeBeforeNewline : List Char → Bool
  | [] => false
  | '\x7d' :: _ => true
  | '\n' :: _ => false
  | _ :: rest => closeBeforeNewline rest

/-- The placeholder regex test of `PLACEHOLDER_PATTERN` on character lists:
some occurrence of a dollar-brace opener is closed later on the same line. -/
def hasPlaceholderChars : List Char → Bool
  | [] => false
  | '$' :: '\x7b' :: rest => closeBeforeNewline rest || hasPlaceholderChars rest
  | _ :: rest => hasPlaceholderChars rest

/-- The `ContainerRuntimePropertiesUtil.isPlaceholder` for a present value
(the `null` case is handled by the callers' explicit null checks). -/
def isPlaceholder (s : String) : Bool :=
  hasPlaceholderChars s.data

/-- JS `p || default` for a possibly-absent string: `undefined`/`null` and
the falsy empty string fall back to the default. -/
def jsStrOrDefault (v : Option String) (dflt : String) : String :=
  match v with
  | none => dflt
  | some s => if s = "" then dflt else s

/-- The `getLatestReleasedVersion`: the file-sourced value unless it is absent
or a placeholder, in which case the built-in default. The environment is
not consulted. -/
def getLatestReleasedVersion (fileValue : Option String) (defaultValue : String) :
    String :=
  match fileValue with
  | none => defaultValue
  | some v => if isPlaceholder v then defaultValue else v

/-- The `getPropertyOrDefault`: the default when the environment variable is
unset and the file value is absent or a placeholder; otherwise
`process.env[envKey] ?? (propertyValue || defaultValue)`. -/
def getPropertyOrDefault (envValue fileValue : Option String)
    (defaultValue : String) : String :=
  if envValue = none ∧ (fileValue = none ∨ isPlaceholder (fileValue.getD "")) then
    defaultValue
  else
    match envValue with
    | some e => e
    | none => jsStrOrDefault fileValue defaultValue

/-- The `resolveProperty`: dispatches on `useVersionResolver`. `env` maps
environment-variable names to their values, `file` maps JSON keys to the
values read from the configuration file. -/
def resolveProperty (k : ConfigKey) (env file : String → Option String) : String :=
  let config := CAMUNDA_RUNTIME_CONFIGURATION k
  if config.useVersionResolver then
    getLatestReleasedVersion (file config.jsonKey) config.defaultValue
  else
    getPropertyOrDefault (env config.envKey) (file config.jsonKey) config.defaultValue

end ContainerRuntimePropertiesUtil

namespace DecisionInstanceAssert

/-- A JS value as far as strict equality can observe it on this code path:
`undefined`, `null`, booleans, (integer) numbers, strings, and object
references identified by an id (`===` on objects is reference equality). -/
inductive Prim
  | undefined
  | jsNull
  | boolean (b : Bool)
  | number (n : Int)
  | string (s : String)
  | ref (id : Nat)
deriving DecidableEq, Repr

/-- JS strict equality `===` restricted to this value domain. -/
def strictEq (a b : Prim) : Bool :=
  a = b

/-- JS property read `A[k]` on an object modelled as an association list
(first occurrence wins, as in a JS object, whose keys are unique):
`undefined` when the key is absent. -/
def lookupJs (A : List (String × Prim)) (k : String) : Prim :=
  match A.find? (fun kv => kv.1 = k) with
  | some kv => kv.2
  | none => .undefined

/-- The condition body of `hasResultContaining` on an object result:
`Object.entries(expectedPartialResult).every` of
`result[key] === value`. -/
def hasResultContainingPred (expected actual : List (String × Prim)) : Bool :=
  expected.all (fun kv => strictEq (lookupJs actual kv.1) kv.2)

/-- The full condition including the guard on `decision?.result`:
an absent (or non-object) result never matches. -/
def hasResultContainingCheck (expected : List (String × Prim))
    (result : Option (List (String × Prim))) : Bool :=
  match result with
  | none => false
  | some A => hasResultContainingPred expected A

end DecisionInstanceAssert

/-! ## Claim theorems: job worker mock -/

namespace JobWorkerMock

lemma countInvoke_append (l r : List MockEvent) :
    countInvoke (l ++ r) = countInvoke l + countInvoke r :=
  List.countP_append _ _ _

lemma invokesCovered_nil (s : Bool) : invokesCovered s [] = true := rfl

lemma invokesCovered_register (s : Bool) (n : Nat) (xs : List MockEvent) :
    invokesCovered s (.registerWorker n :: xs) = invokesCovered s xs := rfl

lemma invokesCovered_resolve (s : Bool) (p : Nat) (xs : List MockEvent) :
    invokesCovered s (.resolveFinish p :: xs) = invokesCovered s xs := rfl

lemma invokesCovered_stop (s : Bool) (xs : List MockEvent) :
    invokesCovered s (.stopUnderlyingWorker :: xs) = invokesCovered true xs := rfl

lemma invokesCovered_invoke (s : Bool) (j : Nat) (xs : List MockEvent) :
    invokesCovered s (.invokeBehavior j :: xs) = (s && invokesCovered s xs) := rfl

lemma invokesCovered_append :
    ∀ (l r : List MockEvent) (s : Bool),
      invokesCovered s (l ++ r)
        = (invokesCovered s l && invokesCovered (s || hasStop l) r) := by
  intro l
  induction l with
  | nil => intro r s; simp [invokesCovered_nil, hasStop]
  | cons e rest ih =>
    intro r s
    cases e with
    | registerWorker n =>
      simp only [List.cons_append, invokesCovered_register, ih, hasStop, List.any_cons,
        Bool.false_or]
    | resolveFinish p =>
      simp only [List.cons_append, invokesCovered_resolve, ih, hasStop, List.any_cons,
        Bool.false_or]
    | stopUnderlyingWorker =>
      simp only [List.cons_append, invokesCovered_stop, ih, hasStop, List.any_cons,
        Bool.true_or, Bool.or_true]
    | invokeBehavior j =>
      simp only [List.cons_append, invokesCovered_invoke, ih, hasStop, List.any_cons,
        Bool.false_or, Bool.and_assoc]

lemma countInvoke_nil : countInvoke [] = 0 := rfl

lemma countInvoke_register (n : Nat) : countInvoke [.registerWorker n] = 0 := rfl

lemma countInvoke_stop_invoke (j : Nat) :
    countInvoke [.stopUnderlyingWorker, .invokeBehavior j] = 1 := rfl

lemma countInvoke_stop_invoke_resolve (j p : Nat) :
    countInvoke [.stopUnderlyingWorker, .invokeBehavior j, .resolveFinish p] = 1 := rfl

lemma invokesCovered_dispatch (s : Bool) (j : Nat) :
    invokesCovered s [.stopUnderlyingWorker, .invokeBehavior j] = true := by
  simp [invokesCovered_stop, invokesCovered_invoke, invokesCovered_nil]

lemma invokesCovered_dispatch_resolve (s : Bool) (j p : Nat) :
    invokesCovered s [.stopUnderlyingWorker, .invokeBehavior j, .resolveFinish p] = true := by
  simp [invokesCovered_stop, invokesCovered_invoke, invokesCovered_resolve,
    invokesCovered_nil]

lemma configOp_inv (st : MockState) (c : TerminalCall) (acc : List MockEvent)
    (h : MockInv st acc) : MockInv (configOp st c).1 (acc ++ (configOp st c).2) := by
  rcases h with ⟨h1, h2, h3, h4, h5⟩
  by_cases hdn : c = .doNothing
  · have he : configOp st c
        = ({ st with handlers := st.handlers ++ [c]
                     finish := some st.promisesCreated
                     promisesCreated := st.promisesCreated + 1 }, []) := by
      simp [configOp, hdn]
    rw [he, List.append_nil]
    exact ⟨h1, h2, h3, h4, h5⟩
  · by_cases hst : st.isStarted = true
    · have he : configOp st c
          = ({ st with handlers := st.handlers ++ [c]
                       finish := some st.promisesCreated
                       promisesCreated := st.promisesCreated + 1 }, []) := by
        simp [configOp, startOp, hdn, hst]
      rw [he, List.append_nil]
      exact ⟨h1, h2, h3, h4, h5⟩
    · have hc0 : countInvoke acc = 0 := h2 (by revert hst; cases st.isStarted <;> simp)
      have he : configOp st c
          = ({ st with handlers := st.handlers ++ [c]
                       isStarted := true
                       workerActive := true
                       handlerIndex := 0
                       registrations := st.registrations ++ [1]
                       finish := some st.promisesCreated
                       promisesCreated := st.promisesCreated + 1 },
             [.registerWorker 1]) := by
        simp [configOp, startOp, hdn, hst]
      rw [he]
      refine ⟨fun _ => rfl, fun hq => Bool.noConfusion hq, ?_, ?_, ?_⟩
      · intro _
        rw [countInvoke_append, hc0, countInvoke_register]
      · rw [countInvoke_append, countInvoke_register]
        omega
      · rw [invokesCovered_append, h5]
        simp [invokesCovered_register, invokesCovered_nil]

lemma jobArriveOp_inv (st : MockState) (j : Nat) (thr : Bool) (acc : List MockEvent)
    (h : MockInv st acc) :
    MockInv (jobArriveOp st j thr).1 (acc ++ (jobArriveOp st j thr).2) := by
  rcases h with ⟨h1, h2, h3, h4, h5⟩
  by_cases hact : st.workerActive = true
  · have hc0 : countInvoke acc = 0 := h3 hact
    have hstarted : st.isStarted = true := h1 hact
    by_cases hthr : thr = true
    · have he : jobArriveOp st j thr
          = ({ st with workerActive := false, handlerIndex := st.handlerIndex + 1 },
             [.stopUnderlyingWorker, .invokeBehavior j]) := by
        simp [jobArriveOp, handleJob, hact, hthr]
      rw [he]
      refine ⟨fun hq => Bool.noConfusion hq,
        fun hq => absurd (hstarted.symm.trans hq) (by simp),
        fun hq => Bool.noConfusion hq, ?_, ?_⟩
      · rw [countInvoke_append, hc0, countInvoke_stop_invoke]
      · rw [invokesCovered_append, h5]
        simp [invokesCovered_dispatch]
    · rcases hfin : st.finish with _ | p
      · have he : jobArriveOp st j thr
            = ({ st with workerActive := false, handlerIndex := st.handlerIndex + 1 },
               [.stopUnderlyingWorker, .invokeBehavior j]) := by
          simp [jobArriveOp, handleJob, hact, hthr, hfin]
        rw [he]
        refine ⟨fun hq => Bool.noConfusion hq,
          fun hq => absurd (hstarted.symm.trans hq) (by simp),
          fun hq => Bool.noConfusion hq, ?_, ?_⟩
        · rw [countInvoke_append, hc0, countInvoke_stop_invoke]
        · rw [invokesCovered_append, h5]
          simp [invokesCovered_dispatch]
      · have he : jobArriveOp st j thr
            = ({ st with workerActive := false
                         handlerIndex := st.handlerIndex + 1
                         resolvedPromises := st.resolvedPromises ++ [p] },
               [.stopUnderlyingWorker, .invokeBehavior j, .resolveFinish p]) := by
          simp [jobArriveOp, handleJob, hact, hthr, hfin]
        rw [he]
        refine ⟨fun hq => Bool.noConfusion hq,
          fun hq => absurd (hstarted.symm.trans hq) (by simp),
          fun hq => Bool.noConfusion hq, ?_, ?_⟩
        · rw [countInvoke_append, hc0, countInvoke_stop_invoke_resolve]
        · rw [invokesCovered_append, h5]
          simp [invokesCovered_dispatch_resolve]
  · have he : jobArriveOp st j thr = (st, []) := by
      simp [jobArriveOp, hact]
    rw [he, List.append_nil]
    exact ⟨h1, h2, h3, h4, h5⟩

lemma mockRunFrom_inv :
    ∀ (as : List MockAction) (st : MockState) (acc : List MockEvent),
      MockInv st acc → (∀ a ∈ as, a ≠ .stopCall) →
      MockInv (mockRunFrom st acc as).1 (mockRunFrom st acc as).2 := by
  intro as
  induction as with
  | nil =>
    intro st acc h _
    simpa [mockRunFrom] using h
  | cons a rest ih =>
    intro st acc h hn
    have hrest : ∀ x ∈ rest, x ≠ MockAction.stopCall := fun x hx => hn x (by simp [hx])
    cases a with
    | stopCall => exact absurd rfl (hn .stopCall (by simp))
    | config c =>
      exact ih _ _ (configOp_inv st c acc h) hrest
    | jobArrive j thr =>
      exact ih _ _ (jobArriveOp_inv st j thr acc h) hrest

/-- Claim C2: in any sequence of terminal configuration calls and job
arrivals (no external `stop()` call, which would allow an explicit
restart), a `JobWorkerMock` handles at most one unit of work — the
`jobHandler` stops the underlying worker as its very first step, before
invoking the configured behavior, so every behavior invocation in the
engine-boundary trace is preceded by a worker stop and a second delivered
job is never claimed, regardless of whether the behavior throws. -/
theorem jobWorkerMock_single_shot (as : List MockAction)
    (h : ∀ a ∈ as, a ≠ MockAction.stopCall) :
    countInvoke (mockRun as).2 ≤ 1
    ∧ invokesCovered false (mockRun as).2 = true := by
  have hinv : MockInv initMock [] := by
    refine ⟨by simp [initMock], fun _ => rfl, fun _ => rfl, by simp [countInvoke_nil], rfl⟩
  have hfin := mockRunFrom_inv as initMock [] hinv h
  exact ⟨hfin.2.2.2.1, hfin.2.2.2.2⟩

/-- Witness for C2: one completed configuration and two arriving jobs of
the same type — exactly one is handled. -/
theorem jobWorkerMock_single_shot_witness :
    countInvoke (mockRun [.config .thenComplete, .jobArrive 1 false,
        .jobArrive 2 false]).2 ≤ 1
    ∧ invokesCovered false (mockRun [.config .thenComplete, .jobArrive 1 false,
        .jobArrive 2 false]).2 = true :=
  jobWorkerMock_single_shot
    [.config .thenComplete, .jobArrive 1 false, .jobArrive 2 false] (by decide)

lemma mockRunFrom_append :
    ∀ (xs ys : List MockAction) (st : MockState) (acc : List MockEvent),
      mockRunFrom st acc (xs ++ ys)
        = mockRunFrom (mockRunFrom st acc xs).1 (mockRunFrom st acc xs).2 ys := by
  intro xs
  induction xs with
  | nil => intro ys st acc; simp [mockRunFrom]
  | cons a rest ih =>
    intro ys st acc
    simp only [List.cons_append, mockRunFrom]
    exact ih ys _ _

lemma configOp_fields (st : MockState) (c : TerminalCall) :
    (configOp st c).1.finish = some st.promisesCreated
    ∧ (configOp st c).1.promisesCreated = st.promisesCreated + 1
    ∧ (configOp st c).1.resolvedPromises = st.resolvedPromises := by
  by_cases hdn : c = .doNothing
  · simp [configOp, hdn]
  · by_cases hst : st.isStarted <;> simp [configOp, startOp, hdn, hst]

lemma configs_phase :
    ∀ (cs : List TerminalCall) (st : MockState) (acc : List MockEvent),
      (mockRunFrom st acc (cs.map .config)).1.finish
          = (if cs = [] then st.finish else some (st.promisesCreated + cs.length - 1))
      ∧ (mockRunFrom st acc (cs.map .config)).1.promisesCreated
          = st.promisesCreated + cs.length
      ∧ (mockRunFrom st acc (cs.map .config)).1.resolvedPromises
          = st.resolvedPromises := by
  intro cs
  induction cs with
  | nil => intro st acc; simp [mockRunFrom]
  | cons c ct ih =>
    intro st acc
    simp only [List.map_cons, mockRunFrom, mockStep]
    rcases ih (configOp st c).1 (acc ++ (configOp st c).2) with ⟨ihf, ihp, ihr⟩
    rcases configOp_fields st c with ⟨hf, hp, hr⟩
    refine ⟨?_, ?_, ?_⟩
    · rw [ihf]
      by_cases hct : ct = []
      · simp [hct, hf, hp]
      · rw [if_neg hct, if_neg (by simp), hp]
        congr 1
        simp only [List.length_cons]
        omega
    · rw [ihp, hp]
      simp only [List.length_cons]
      omega
    · rw [ihr, hr]

lemma mockStep_finishInv (q : Nat) (st : MockState) (a : MockAction)
    (hconf : ∀ c, a ≠ .config c) (h : FinishInv q st) :
    FinishInv q (mockStep st a).1 := by
  rcases h with ⟨hf, hr⟩
  cases a with
  | config c => exact absurd rfl (hconf c)
  | stopCall =>
    by_cases hst : st.isStarted = true
    · have he : mockStep st .stopCall
          = ({ st with workerActive := false, isStarted := false },
             [.stopUnderlyingWorker]) := by
        simp [mockStep, stopOp, hst]
      rw [he]
      exact ⟨hf, hr⟩
    · have he : mockStep st .stopCall = (st, []) := by
        simp [mockStep, stopOp, hst]
      rw [he]
      exact ⟨hf, hr⟩
  | jobArrive j thr =>
    by_cases hact : st.workerActive = true
    · by_cases hthr : thr = true
      · have he : mockStep st (.jobArrive j thr)
            = ({ st with workerActive := false, handlerIndex := st.handlerIndex + 1 },
               [.stopUnderlyingWorker, .invokeBehavior j]) := by
          simp [mockStep, jobArriveOp, handleJob, hact, hthr]
        rw [he]
        exact ⟨hf, hr⟩
      · have he : mockStep st (.jobArrive j thr)
            = ({ st with workerActive := false
                         handlerIndex := st.handlerIndex + 1
                         resolvedPromises := st.resolvedPromises ++ [q] },
               [.stopUnderlyingWorker, .invokeBehavior j, .resolveFinish q]) := by
          simp [mockStep, jobArriveOp, handleJob, hact, hthr, hf]
        rw [he]
        refine ⟨hf, ?_⟩
        intro p hp
        rcases List.mem_append.mp hp with hp | hp
        · exact hr p hp
        · simpa using hp
    · have he : mockStep st (.jobArrive j thr) = (st, []) := by
        simp [mockStep, jobArriveOp, hact]
      rw [he]
      exact ⟨hf, hr⟩

lemma mockRunFrom_finishInv :
    ∀ (as : List MockAction) (st : MockState) (acc : List MockEvent) (q : Nat),
      (∀ a ∈ as, ∀ c, a ≠ .config c) → FinishInv q st →
      FinishInv q (mockRunFrom st acc as).1 := by
  intro as
  induction as with
  | nil => intro st acc q _ h; simpa [mockRunFrom] using h
  | cons a rest ih =>
    intro st acc q hconf h
    simp only [mockRunFrom]
    exact ih _ _ q (fun x hx c => hconf x (by simp [hx]) c)
      (mockStep_finishInv q st a (fun c => hconf a (by simp) c) h)

/-- Claim C9: when several terminal configuration calls are made on the same
`JobWorkerMock` before any job arrives, each call overwrites the single
stored `this.finish` resolver, so any promise that ever resolves — under
any subsequent sequence of job arrivals and `stop()` calls — is the one
returned by the most recent configuration call; the earlier calls' promises
stay pending forever, even though their queued behaviors remain dispatchable
round-robin. -/
theorem jobWorkerMock_latest_promise_only (configs : List TerminalCall)
    (rest : List MockAction)
    (hne : configs ≠ [])
    (hrest : ∀ a ∈ rest, ∀ c, a ≠ MockAction.config c) :
    ∀ p ∈ (mockRun (configs.map .config ++ rest)).1.resolvedPromises,
      p = configs.length - 1 := by
  rw [mockRun, mockRunFrom_append]
  rcases configs_phase configs initMock [] with ⟨hf, _, hr⟩
  rw [if_neg hne] at hf
  have hinv : FinishInv (configs.length - 1)
      (mockRunFrom initMock [] (configs.map .config)).1 := by
    refine ⟨?_, ?_⟩
    · rw [hf]
      simp [initMock]
    · rw [hr]
      simp [initMock]
  exact (mockRunFrom_finishInv rest _ _ _ hrest hinv).2

/-- Witness for C9: two configuration calls then one job — the resolved
promise is the second one (id 1), the first promise (id 0) is unresolved. -/
theorem jobWorkerMock_latest_promise_only_witness :
    (mockRun ([TerminalCall.thenComplete, TerminalCall.thenThrowError].map .config
        ++ [.jobArrive 1 false])).1.resolvedPromises = [1]
    ∧ (1 : Nat) = [TerminalCall.thenComplete, TerminalCall.thenThrowError].length - 1 :=
  ⟨by decide,
   jobWorkerMock_latest_promise_only [.thenComplete, .thenThrowError]
     [.jobArrive 1 false] (by decide) (by simp) 1 (by decide)⟩

end JobWorkerMock

/-! ## Claim theorems: cleanup ordering -/

namespace CamundaProcessTestContext

lemma eq_append_of_marker {α : Type} (Q : α → Prop) :
    ∀ (xs : List α) (ys l r : List α) (e : α),
      (∀ x ∈ xs, ¬ Q x) → Q e → xs ++ ys = l ++ e :: r →
      ∃ l₂, l = xs ++ l₂ := by
  intro xs
  induction xs with
  | nil =>
    intro ys l r e _ _ _
    exact ⟨l, by simp⟩
  | cons x xt ih =>
    intro ys l r e hfree hQ h
    cases l with
    | nil =>
      simp only [List.cons_append, List.nil_append, List.cons.injEq] at h
      exact absurd (by rw [h.1]; exact hQ) (hfree x (by simp))
    | cons y lt =>
      simp only [List.cons_append, List.cons.injEq] at h
      rcases h with ⟨hxy, hrest⟩
      rcases ih ys lt r e (fun z hz => hfree z (by simp [hz])) hQ hrest with ⟨l₂, hl⟩
      exact ⟨l₂, by rw [← hxy, hl]; simp⟩

/-- Claim C1: every `cleanupTestData` run issues a cancellation attempt for
each tracked process instance, and whenever a `deleteResource` call appears
in the engine-call trace, every tracked instance's cancellation attempt
already appears strictly before it — no deletion is attempted while any
tracked instance's cancellation is still outstanding. -/
theorem cleanupTestData_cancel_before_delete
    (jobWorkers : Nat) (instances : List String)
    (resources : List TrackedResource) (retries : String → Nat) :
    (∀ pk ∈ instances,
      CleanupEvent.cancelProcessInstance pk
        ∈ cleanupTestData jobWorkers instances resources retries)
    ∧ (∀ (l : List CleanupEvent) (k : String) (r : List CleanupEvent),
        cleanupTestData jobWorkers instances resources retries
          = l ++ CleanupEvent.deleteResource k :: r →
        ∀ pk ∈ instances, CleanupEvent.cancelProcessInstance pk ∈ l) := by
  constructor
  · intro pk hpk
    unfold cleanupTestData cleanupTrackedProcessInstances
    refine List.mem_append.mpr (Or.inl ?_)
    refine List.mem_append.mpr (Or.inr ?_)
    exact List.mem_map_of_mem _ hpk
  · intro l k r heq pk hpk
    have hfree : ∀ x ∈ ((List.range jobWorkers).map CleanupEvent.stopWorker
        ++ cleanupTrackedProcessInstances instances),
        ¬ (∃ k', x = CleanupEvent.deleteResource k') := by
      intro x hx
      rcases List.mem_append.mp hx with hx | hx
      · rcases List.mem_map.mp hx with ⟨i, _, hi⟩
        rintro ⟨k', hk'⟩
        rw [← hi] at hk'
        cases hk'
      · rcases List.mem_map.mp hx with ⟨q, _, hq⟩
        rintro ⟨k', hk'⟩
        rw [← hq] at hk'
        cases hk'
    have hsplit := eq_append_of_marker (fun e => ∃ k', e = CleanupEvent.deleteResource k')
      ((List.range jobWorkers).map CleanupEvent.stopWorker
        ++ cleanupTrackedProcessInstances instances)
      (cleanupTrackedResources resources retries) l r
      (CleanupEvent.deleteResource k) hfree ⟨k, rfl⟩
      (by exact heq)
    rcases hsplit with ⟨l₂, hl⟩
    rw [hl]
    refine List.mem_append.mpr (Or.inl ?_)
    refine List.mem_append.mpr (Or.inr ?_)
    exact List.mem_map_of_mem _ hpk

/-- Witness for C1: one tracked instance and one tracked resource — the
cancellation call is in the trace prefix preceding the deletion call. -/
theorem cleanupTestData_cancel_before_delete_witness :
    CleanupEvent.cancelProcessInstance "i1"
      ∈ [CleanupEvent.cancelProcessInstance "i1"] :=
  (cleanupTestData_cancel_before_delete 0 ["i1"]
      [⟨"proc.bpmn", "r1", .processDefinition⟩] (fun _ => 0)).2
    [CleanupEvent.cancelProcessInstance "i1"] "r1" [] rfl "i1" (by simp)

end CamundaProcessTestContext

/-! ## Helper lemmas -/

namespace BaseAssert

lemma waitUntilRun_result_ne_raised (cfg : WaitConfig) :
    ∀ (iters : List PollIter) (st : WaitState),
      (waitUntilRun cfg iters st).result ≠ .raised := by
  intro iters
  induction iters with
  | nil =>
    intro st
    unfold waitUntilRun
    split <;> simp
  | cons it rest ih =>
    intro st
    unfold waitUntilRun
    split
    · rcases it with ⟨o, d⟩
      rcases o with b | _
      · cases b <;> simp [ih]
      · simp [ih]
    · simp

lemma stepState_err_fold (I : Nat) :
    ∀ (iters : List PollIter) (st : WaitState),
      (∀ it ∈ iters, it.outcome = .err) →
      (iters.foldl (fun s it => stepState I s it.outcome it.duration) st).consecutiveErrors
        = st.consecutiveErrors + iters.length ∧
      (iters ≠ [] →
        (iters.foldl (fun s it => stepState I s it.outcome it.duration) st).currentInterval
          = Nat.min (I * 2 ^ (st.consecutiveErrors + iters.length)) 5000) := by
  intro iters
  induction iters with
  | nil => intro st _; simp
  | cons it rest ih =>
    intro st hall
    have hit : it.outcome = .err := hall it (by simp)
    have hrest : ∀ x ∈ rest, x.outcome = .err := fun x hx => hall x (by simp [hx])
    have hstep : stepState I st it.outcome it.duration
        = { elapsed := st.elapsed + it.duration
              + (Nat.min (I * 2 ^ (st.consecutiveErrors + 1)) 5000 - it.duration)
            currentInterval := Nat.min (I * 2 ^ (st.consecutiveErrors + 1)) 5000
            consecutiveErrors := st.consecutiveErrors + 1 } := by
      simp [stepState, hit, updatedInterval, updatedErrors, iterSleep]
    rcases ih (stepState I st it.outcome it.duration) hrest with ⟨ihc, ihi⟩
    constructor
    · rw [List.foldl_cons, ihc, hstep]
      simp [Nat.add_assoc, Nat.add_comm 1 rest.length]
    · intro _
      rcases List.eq_nil_or_concat rest with hr | hr
      · subst hr
        simp [hstep]
      · have hne : rest ≠ [] := by
          rcases hr with ⟨a, b, hab⟩
          subst hab
          simp
        rw [List.foldl_cons, ihi hne, hstep]
        simp [Nat.add_assoc, Nat.add_comm 1 rest.length]

lemma stepState_elapsed (I : Nat) (st : WaitState) (o : PredOutcome) (d : Nat) :
    (stepState I st o d).elapsed = st.elapsed + (d + (updatedInterval I st o - d)) := by
  simp [stepState, iterSleep, Nat.add_assoc]

lemma updatedInterval_le (I B : Nat) (st : WaitState) (o : PredOutcome)
    (hI : I ≤ B) (h5 : 5000 ≤ B) : updatedInterval I st o ≤ B := by
  rcases o with b | _
  · simpa [updatedInterval] using hI
  · simp only [updatedInterval]
    exact le_trans (Nat.min_le_right _ _) h5

lemma waitUntilRun_guard_false (cfg : WaitConfig) (iters : List PollIter) (st : WaitState)
    (h : ¬ (st.elapsed : Int) < cfg.timeout) :
    waitUntilRun cfg iters st = ⟨.timeoutFailure cfg.description cfg.timeout, st, 0⟩ := by
  cases iters with
  | nil =>
    simp only [waitUntilRun]
    rw [if_neg h]
  | cons it rest =>
    simp only [waitUntilRun]
    rw [if_neg h]

lemma waitUntilRun_cons_ok_false (cfg : WaitConfig) (it : PollIter) (rest : List PollIter)
    (st : WaitState) (hguard : (st.elapsed : Int) < cfg.timeout)
    (h : it.outcome = .ok false) :
    waitUntilRun cfg (it :: rest) st
      = ⟨(waitUntilRun cfg rest (stepState cfg.interval st (.ok false) it.duration)).result,
         (waitUntilRun cfg rest (stepState cfg.interval st (.ok false) it.duration)).finalState,
         (waitUntilRun cfg rest (stepState cfg.interval st (.ok false) it.duration)).evals + 1⟩ := by
  simp only [waitUntilRun]
  rw [if_pos hguard, h]

lemma waitUntilRun_cons_err (cfg : WaitConfig) (it : PollIter) (rest : List PollIter)
    (st : WaitState) (hguard : (st.elapsed : Int) < cfg.timeout)
    (h : it.outcome = .err) :
    waitUntilRun cfg (it :: rest) st
      = ⟨(waitUntilRun cfg rest (stepState cfg.interval st .err it.duration)).result,
         (waitUntilRun cfg rest (stepState cfg.interval st .err it.duration)).finalState,
         (waitUntilRun cfg rest (stepState cfg.interval st .err it.duration)).evals + 1⟩ := by
  simp only [waitUntilRun]
  rw [if_pos hguard, h]

lemma waitUntilRun_timeout_props (cfg : WaitConfig) (D B : Nat)
    (hDB : D ≤ B) (hIB : cfg.interval ≤ B) (h5B : 5000 ≤ B) :
    ∀ (iters : List PollIter) (st : WaitState),
      (∀ it ∈ iters, it.outcome ≠ .ok true) →
      (∀ it ∈ iters, 1 ≤ it.duration) →
      (∀ it ∈ iters, it.duration ≤ D) →
      cfg.timeout.toNat ≤ st.elapsed + iters.length →
      (waitUntilRun cfg iters st).result = .timeoutFailure cfg.description cfg.timeout
      ∧ cfg.timeout ≤ ((waitUntilRun cfg iters st).finalState.elapsed : Int)
      ∧ ((st.elapsed : Int) < cfg.timeout →
          ((waitUntilRun cfg iters st).finalState.elapsed : Int)
            < cfg.timeout + (B : Int))
      ∧ (¬ (st.elapsed : Int) < cfg.timeout → (waitUntilRun cfg iters st).finalState = st)
      ∧ (waitUntilRun cfg iters st).evals ≤ cfg.timeout.toNat - st.elapsed := by
  intro iters
  induction iters with
  | nil =>
    intro st _ _ _ hfuel
    simp only [List.length_nil, Nat.add_zero] at hfuel
    have hguard : ¬ (st.elapsed : Int) < cfg.timeout := by omega
    rw [waitUntilRun_guard_false cfg [] st hguard]
    refine ⟨rfl, by simp; omega, fun h => absurd h hguard, fun _ => rfl, by simp⟩
  | cons it rest ih =>
    intro st hnever hpos hD hfuel
    simp only [List.length_cons] at hfuel
    by_cases hguard : (st.elapsed : Int) < cfg.timeout
    · have hno : it.outcome ≠ .ok true := hnever it (by simp)
      have hd1 : 1 ≤ it.duration := hpos it (by simp)
      have hdD : it.duration ≤ D := hD it (by simp)
      have hguardN : st.elapsed < cfg.timeout.toNat := by omega
      have key : ∀ (o : PredOutcome), it.outcome = o →
          (∀ st', st' = stepState cfg.interval st o it.duration →
            waitUntilRun cfg (it :: rest) st
              = ⟨(waitUntilRun cfg rest st').result, (waitUntilRun cfg rest st').finalState,
                 (waitUntilRun cfg rest st').evals + 1⟩) →
          (waitUntilRun cfg (it :: rest) st).result
              = .timeoutFailure cfg.description cfg.timeout
          ∧ cfg.timeout ≤ ((waitUntilRun cfg (it :: rest) st).finalState.elapsed : Int)
          ∧ ((st.elapsed : Int) < cfg.timeout →
              ((waitUntilRun cfg (it :: rest) st).finalState.elapsed : Int)
                < cfg.timeout + (B : Int))
          ∧ (¬ (st.elapsed : Int) < cfg.timeout →
              (waitUntilRun cfg (it :: rest) st).finalState = st)
          ∧ (waitUntilRun cfg (it :: rest) st).evals ≤ cfg.timeout.toNat - st.elapsed := by
        intro o ho hrun
        have hadv : (stepState cfg.interval st o it.duration).elapsed
            = st.elapsed + (it.duration + (updatedInterval cfg.interval st o - it.duration)) :=
          stepState_elapsed _ _ _ _
        have hadv1 : st.elapsed + 1 ≤ (stepState cfg.interval st o it.duration).elapsed := by
          omega
        have hadvB : (stepState cfg.interval st o it.duration).elapsed
            ≤ st.elapsed + B := by
          have hui := updatedInterval_le cfg.interval B st o hIB h5B
          omega
        rcases ih (stepState cfg.interval st o it.duration)
            (fun x hx => hnever x (by simp [hx]))
            (fun x hx => hpos x (by simp [hx])) (fun x hx => hD x (by simp [hx]))
            (by omega) with ⟨ihr, ihlo, ihhi, ihst, ihev⟩
        rw [hrun (stepState cfg.interval st o it.duration) rfl]
        refine ⟨ihr, ihlo, ?_, fun h => absurd hguard h, ?_⟩
        · intro _
          by_cases h2 : ((stepState cfg.interval st o it.duration).elapsed : Int) < cfg.timeout
          · exact ihhi h2
          · rw [ihst h2]
            omega
        · simp only
          omega
      rcases hstep : it.outcome with b | _
      · cases b
        · exact key (.ok false) hstep
            (fun st' hst' => by
              rw [hst']
              exact waitUntilRun_cons_ok_false cfg it rest st hguard hstep)
        · exact absurd hstep hno
      · exact key .err hstep
          (fun st' hst' => by
            rw [hst']
            exact waitUntilRun_cons_err cfg it rest st hguard hstep)
    · rw [waitUntilRun_guard_false cfg (it :: rest) st hguard]
      refine ⟨rfl, by simp; omega, fun h => absurd h hguard, fun _ => rfl, by simp⟩

lemma waitUntilRun_okfalse_bound (cfg : WaitConfig) :
    ∀ (iters : List PollIter) (st : WaitState),
      (∀ it ∈ iters, it.outcome = .ok false) →
      (∀ it ∈ iters, it.duration ≤ cfg.interval) →
      (∀ it ∈ iters, 1 ≤ it.duration) →
      cfg.timeout.toNat ≤ st.elapsed + iters.length →
      ((st.elapsed : Int) < cfg.timeout →
        ((waitUntilRun cfg iters st).finalState.elapsed : Int)
          < cfg.timeout + (cfg.interval : Int))
      ∧ (¬ (st.elapsed : Int) < cfg.timeout → (waitUntilRun cfg iters st).finalState = st) := by
  intro iters
  induction iters with
  | nil =>
    intro st _ _ _ hfuel
    simp only [List.length_nil, Nat.add_zero] at hfuel
    have hguard : ¬ (st.elapsed : Int) < cfg.timeout := by omega
    rw [waitUntilRun_guard_false cfg [] st hguard]
    exact ⟨fun h => absurd h hguard, fun _ => rfl⟩
  | cons it rest ih =>
    intro st hok hle hpos hfuel
    simp only [List.length_cons] at hfuel
    by_cases hguard : (st.elapsed : Int) < cfg.timeout
    · have hstep : it.outcome = .ok false := hok it (by simp)
      have hd : it.duration ≤ cfg.interval := hle it (by simp)
      have hd1 : 1 ≤ it.duration := hpos it (by simp)
      have hadv : (stepState cfg.interval st (.ok false) it.duration).elapsed
          = st.elapsed + cfg.interval := by
        rw [stepState_elapsed]
        simp only [updatedInterval]
        omega
      have hI1 : 1 ≤ cfg.interval := le_trans hd1 hd
      rcases ih (stepState cfg.interval st (.ok false) it.duration)
          (fun x hx => hok x (by simp [hx])) (fun x hx => hle x (by simp [hx]))
          (fun x hx => hpos x (by simp [hx])) (by omega) with ⟨ihhi, ihst⟩
      rw [waitUntilRun_cons_ok_false cfg it rest st hguard hstep]
      refine ⟨?_, fun h => absurd hguard h⟩
      intro _
      by_cases h2 : ((stepState cfg.interval st (.ok false) it.duration).elapsed : Int)
          < cfg.timeout
      · exact ihhi h2
      · rw [ihst h2]
        omega
    · rw [waitUntilRun_guard_false cfg (it :: rest) st hguard]
      exact ⟨fun h => absurd h hguard, fun _ => rfl⟩

end BaseAssert

/-! ## Claim theorems: the polling primitive -/

namespace BaseAssert

/-- Claim C3: In `BaseAssert.waitUntil`, a throwing condition is treated as
"not yet satisfied" and never propagates: no run ever ends in a raised
exception, and an erroring iteration inside the time budget simply
continues the loop on the backed-off state. After `k` consecutive throwing
iterations (from a fresh or reset state) the polling interval is
`min(interval * 2^k, 5000)` with `consecutiveErrors = k`, and an iteration
whose condition returns (`false`) without throwing resets the interval to
the base value and the consecutive-error count to zero. -/
theorem waitUntil_error_backoff :
    (∀ (cfg : WaitConfig) (iters : List PollIter) (st : WaitState),
      (waitUntilRun cfg iters st).result ≠ .raised)
    ∧ (∀ (cfg : WaitConfig) (it : PollIter) (rest : List PollIter) (st : WaitState),
        it.outcome = .err → (st.elapsed : Int) < cfg.timeout →
        waitUntilRun cfg (it :: rest) st
          = ⟨(waitUntilRun cfg rest (stepState cfg.interval st .err it.duration)).result,
             (waitUntilRun cfg rest (stepState cfg.interval st .err it.duration)).finalState,
             (waitUntilRun cfg rest (stepState cfg.interval st .err it.duration)).evals + 1⟩)
    ∧ (∀ (I : Nat) (iters : List PollIter) (st : WaitState),
        st.consecutiveErrors = 0 → (∀ it ∈ iters, it.outcome = .err) → iters ≠ [] →
        (iters.foldl (fun s it => stepState I s it.outcome it.duration) st).currentInterval
            = Nat.min (I * 2 ^ iters.length) 5000
        ∧ (iters.foldl (fun s it => stepState I s it.outcome it.duration) st).consecutiveErrors
            = iters.length)
    ∧ (∀ (I : Nat) (st : WaitState) (d : Nat),
        (stepState I st (.ok false) d).currentInterval = I
        ∧ (stepState I st (.ok false) d).consecutiveErrors = 0) := by
  refine ⟨fun cfg iters st => waitUntilRun_result_ne_raised cfg iters st,
    fun cfg it rest st h hguard => waitUntilRun_cons_err cfg it rest st hguard h,
    ?_, ?_⟩
  · intro I iters st hce hall hne
    rcases stepState_err_fold I iters st hall with ⟨hc, hi⟩
    rw [hce] at hc hi
    exact ⟨by simpa using hi hne, by simpa using hc⟩
  · intro I st d
    simp [stepState, updatedInterval, updatedErrors]

/-- Witness for C3: three consecutive throwing iterations with base
interval 10 leave the polling interval at `min(10 * 2^3, 5000) = 80`. -/
theorem waitUntil_error_backoff_witness :
    ((List.replicate 3 (⟨PredOutcome.err, 1⟩ : PollIter)).foldl
        (fun s it => stepState 10 s it.outcome it.duration) ⟨0, 10, 0⟩).currentInterval
      = 80 := by
  have h := (waitUntil_error_backoff.2.2.1 10 (List.replicate 3 ⟨.err, 1⟩)
    ⟨0, 10, 0⟩ rfl (by decide) (by decide)).1
  simpa using h

/-- Counterexample for C4: with timeout 10 ms, base interval 5 ms, and a
condition that takes 60000 ms to return `false`, the run fails by timeout
only after 60000 ms — far outside `[T, T + one interval]` under any reading
of "interval" (base 5, current 5, or even the 5000 backoff cap). -/
theorem waitUntil_slow_predicate_counterexample :
    (waitUntil ⟨10, 5, "condition"⟩ [⟨.ok false, 60000⟩]).result
        = .timeoutFailure "condition" 10
    ∧ (waitUntil ⟨10, 5, "condition"⟩ [⟨.ok false, 60000⟩]).finalState.elapsed = 60000
    ∧ ¬ ((60000 : Int) ≤ 10 + 5)
    ∧ ¬ ((60000 : Int) ≤ 10 + 5000) := by
  decide

/-- Claim C4, amended: with a condition that never returns `true`, a positive
timeout `T`, per-iteration progress of at least 1 ms and enough trace, the
run throws the timeout error naming the description and `T`, runs at most
`T` iterations (never indefinitely), and the total elapsed time lies in
`[T, T + one final iteration)`, an iteration spanning at most
`max(duration, max(interval, 5000))` ms; when the condition returns `false`
without throwing and each evaluation takes at most one base interval, the
elapsed time lies in the claimed `[T, T + interval)`. The sleep in each
iteration is `max(0, currentInterval - predicateExecutionTime)`. -/
theorem waitUntil_timeout_tightness (cfg : WaitConfig) (iters : List PollIter) (D : Nat)
    (htpos : 0 < cfg.timeout)
    (hnever : ∀ it ∈ iters, it.outcome ≠ .ok true)
    (hpos : ∀ it ∈ iters, 1 ≤ it.duration)
    (hD : ∀ it ∈ iters, it.duration ≤ D)
    (hfuel : cfg.timeout.toNat ≤ iters.length) :
    (waitUntil cfg iters).result = .timeoutFailure cfg.description cfg.timeout
    ∧ (waitUntil cfg iters).evals ≤ cfg.timeout.toNat
    ∧ cfg.timeout ≤ ((waitUntil cfg iters).finalState.elapsed : Int)
    ∧ ((waitUntil cfg iters).finalState.elapsed : Int)
        < cfg.timeout + (Nat.max D (Nat.max cfg.interval 5000) : Int)
    ∧ ((∀ it ∈ iters, it.outcome = .ok false ∧ it.duration ≤ cfg.interval) →
        ((waitUntil cfg iters).finalState.elapsed : Int)
          < cfg.timeout + (cfg.interval : Int))
    ∧ (∀ (I : Nat) (st : WaitState) (o : PredOutcome) (d : Nat),
        (iterSleep I st o d : Int) = max 0 ((updatedInterval I st o : Int) - (d : Int))) := by
  have hfuel0 : cfg.timeout.toNat ≤ (initState cfg).elapsed + iters.length := by
    simp [initState]
    omega
  have hstart : ((initState cfg).elapsed : Int) < cfg.timeout := by
    simp [initState]
    omega
  have base := waitUntilRun_timeout_props cfg D (Nat.max D (Nat.max cfg.interval 5000))
    (Nat.le_max_left _ _)
    (le_trans (Nat.le_max_left _ _) (Nat.le_max_right _ _))
    (le_trans (Nat.le_max_right _ _) (Nat.le_max_right _ _))
    iters (initState cfg) hnever hpos hD hfuel0
  refine ⟨base.1, ?_, base.2.1, base.2.2.1 hstart, ?_, ?_⟩
  · have h := base.2.2.2.2
    simpa [waitUntil, initState] using h
  · intro hboth
    have h := (waitUntilRun_okfalse_bound cfg iters (initState cfg)
      (fun it hit => (hboth it hit).1) (fun it hit => (hboth it hit).2) hpos hfuel0).1 hstart
    exact h
  · intro I st o d
    have h : ∀ a b : Nat, ((a - b : Nat) : Int) = max 0 ((a : Int) - (b : Int)) := by
      intro a b
      omega
    simpa [iterSleep] using h (updatedInterval I st o) d

/-- Witness for C4: timeout 3 ms, interval 5 ms, three instant failing
checks: the run times out with elapsed time in `[3, 3 + 5)`. -/
theorem waitUntil_timeout_tightness_witness :
    (waitUntil ⟨3, 5, "cond"⟩ (List.replicate 3 ⟨.ok false, 1⟩)).result
        = .timeoutFailure "cond" 3
    ∧ ((waitUntil ⟨3, 5, "cond"⟩ (List.replicate 3 ⟨.ok false, 1⟩)).finalState.elapsed : Int)
        < 3 + 5 := by
  have h := waitUntil_timeout_tightness ⟨3, 5, "cond"⟩ (List.replicate 3 ⟨.ok false, 1⟩) 1
    (by decide) (by decide) (by decide) (by decide) (by decide)
  exact ⟨h.1, h.2.2.2.2.1 (by decide)⟩

end BaseAssert

namespace CamundaProcessTestContext

lemma ctxWaitUntilRun_guard_false (timeout interval : Int) (iters : List BaseAssert.PollIter)
    (elapsed : Nat) (h : ¬ (elapsed : Int) < timeout) :
    waitUntilRun timeout interval iters elapsed
      = ⟨.timeoutFailure "Condition not met" timeout, 0, elapsed⟩ := by
  cases iters with
  | nil =>
    simp only [waitUntilRun]
    rw [if_neg h]
  | cons it rest =>
    simp only [waitUntilRun]
    rw [if_neg h]

end CamundaProcessTestContext

/-- Claim C10, amended: `BaseAssert.waitUntil` with a configured timeout
`≤ 0` evaluates the condition zero times and throws the timeout error
immediately, and so does `CamundaProcessTestContext.waitUntil` for a
negative configured timeout; but a configured timeout of exactly `0` in
`CamundaProcessTestContext.waitUntil` is falsy and is replaced by the
default `10000` by `options.timeout || 10000`, so the condition does run
there. -/
theorem waitUntil_nonpositive_timeout :
    (∀ (cfg : BaseAssert.WaitConfig) (iters : List BaseAssert.PollIter),
      cfg.timeout ≤ 0 →
      BaseAssert.waitUntil cfg iters
        = ⟨.timeoutFailure cfg.description cfg.timeout, BaseAssert.initState cfg, 0⟩)
    ∧ (∀ (t : Int) (i : Option Int) (iters : List BaseAssert.PollIter),
        t < 0 →
        CamundaProcessTestContext.waitUntil (some t) i iters
          = ⟨.timeoutFailure "Condition not met" t, 0, 0⟩)
    ∧ CamundaProcessTestContext.effTimeout (some 0) = 10000 := by
  refine ⟨?_, ?_, rfl⟩
  · intro cfg iters h
    have hguard : ¬ (((BaseAssert.initState cfg).elapsed : Int) < cfg.timeout) := by
      simp [BaseAssert.initState]
      omega
    exact BaseAssert.waitUntilRun_guard_false cfg iters (BaseAssert.initState cfg) hguard
  · intro t i iters ht
    have hne : t ≠ 0 := by omega
    have he : CamundaProcessTestContext.effTimeout (some t) = t := by
      simp [CamundaProcessTestContext.effTimeout, CamundaProcessTestContext.jsNumOrDefault, hne]
    show CamundaProcessTestContext.waitUntilRun (CamundaProcessTestContext.effTimeout (some t))
        (CamundaProcessTestContext.effInterval i) iters 0 = _
    rw [he]
    exact CamundaProcessTestContext.ctxWaitUntilRun_guard_false t _ iters 0 (by omega)

/-- Witness for C10: timeout 0 in the assertion primitive and timeout −5 in
the context helper both fail immediately with zero condition evaluations. -/
theorem waitUntil_nonpositive_timeout_witness :
    BaseAssert.waitUntil ⟨0, 100, "c"⟩ []
        = ⟨.timeoutFailure "c" 0, ⟨0, 100, 0⟩, 0⟩
    ∧ CamundaProcessTestContext.waitUntil (some (-5)) none []
        = ⟨.timeoutFailure "Condition not met" (-5), 0, 0⟩ :=
  ⟨waitUntil_nonpositive_timeout.1 ⟨0, 100, "c"⟩ [] (by decide),
   waitUntil_nonpositive_timeout.2.1 (-5) none [] (by decide)⟩

/-- Counterexample for C10: a configured timeout of exactly `0` in
`CamundaProcessTestContext.waitUntil` does not give zero evaluations — the
`options.timeout || 10000` defaulting turns it into 10000 and the condition
is evaluated. -/
theorem contextWaitUntil_zero_timeout_counterexample :
    (CamundaProcessTestContext.waitUntil (some 0) none
        [⟨BaseAssert.PredOutcome.ok false, 1⟩]).evals = 1
    ∧ CamundaProcessTestContext.effTimeout (some 0) = 10000 := by
  decide

/-! ## Claim theorems: container readiness, configuration, decision results -/

/-- Claim C5, divergence witness: a topology response that names partition 1
in the no-space JSON rendering but reports a follower role and unhealthy
health is accepted as ready by `isPartitionReady` — the first disjunct
short-circuits the whole predicate, so the role and health checks are
bypassed. The same response contains neither a leader-role nor a
healthy-health fragment in either spacing. -/
theorem isPartitionReady_accepts_nonleader_partition :
    CamundaContainer.isPartitionReady
        "\"partitionId\":1, \"role\":\"follower\", \"health\":\"unhealthy\"" = true
    ∧ CamundaContainer.strIncludes
        "\"partitionId\":1, \"role\":\"follower\", \"health\":\"unhealthy\""
        "\"role\":\"leader\"" = false
    ∧ CamundaContainer.strIncludes
        "\"partitionId\":1, \"role\":\"follower\", \"health\":\"unhealthy\""
        "\"role\": \"leader\"" = false
    ∧ CamundaContainer.strIncludes
        "\"partitionId\":1, \"role\":\"follower\", \"health\":\"unhealthy\""
        "\"health\":\"healthy\"" = false
    ∧ CamundaContainer.strIncludes
        "\"partitionId\":1, \"role\":\"follower\", \"health\":\"unhealthy\""
        "\"health\": \"healthy\"" = false := by
  decide

/-- Claim C6, divergence witness: for the version-resolver key
`camundaVersion`, `resolveProperty` routes through
`getLatestReleasedVersion`, which never consults the environment: with the
documented override variable `CAMUNDA_DOCKER_IMAGE_VERSION` set to
`8.8.0` and the configuration file supplying `8.7.0`, the resolved value
is the file value, not the environment value. For a simple key
(`camundaDockerImageName`) the claimed layering does hold. -/
theorem resolveProperty_version_key_ignores_env :
    ContainerRuntimePropertiesUtil.resolveProperty .camundaVersion
        (fun s => if s = "CAMUNDA_DOCKER_IMAGE_VERSION" then some "8.8.0" else none)
        (fun s => if s = "camundaVersion" then some "8.7.0" else none) = "8.7.0"
    ∧ (ContainerRuntimePropertiesUtil.CAMUNDA_RUNTIME_CONFIGURATION .camundaVersion).envKey
        = "CAMUNDA_DOCKER_IMAGE_VERSION"
    ∧ ContainerRuntimePropertiesUtil.resolveProperty .camundaDockerImageName
        (fun s => if s = "CAMUNDA_DOCKER_IMAGE_NAME" then some "img-env" else none)
        (fun s => if s = "camundaDockerImageName" then some "img-file" else none) = "img-env"
    ∧ ContainerRuntimePropertiesUtil.resolveProperty .camundaDockerImageName
        (fun _ => none)
        (fun s => if s = "camundaDockerImageName" then some "img-file" else none) = "img-file"
    ∧ ContainerRuntimePropertiesUtil.resolveProperty .camundaDockerImageName
        (fun _ => none) (fun _ => none) = "camunda/camunda" := by
  refine ⟨rfl, rfl, rfl, ?_, rfl⟩
  decide

/-- Claim C7, divergence witness: `doNothing()` on a fresh `JobWorkerMock`
never registers a worker — no `createJobWorker` call is made and
`isStarted` stays `false` — while each of the other four terminal
configuration methods lazily registers exactly one worker with
`maxJobsToActivate = 1`, and a fresh mock has no registration before any
terminal call. -/
theorem doNothing_never_registers :
    (JobWorkerMock.mockRun [.config .doNothing]).1.registrations = []
    ∧ (JobWorkerMock.mockRun [.config .doNothing]).1.isStarted = false
    ∧ (JobWorkerMock.mockRun [.config .doNothing]).2 = []
    ∧ (JobWorkerMock.mockRun [.config .thenComplete]).2 = [.registerWorker 1]
    ∧ (JobWorkerMock.mockRun [.config .thenThrowError]).2 = [.registerWorker 1]
    ∧ (JobWorkerMock.mockRun [.config .thenThrowBpmnError]).2 = [.registerWorker 1]
    ∧ (JobWorkerMock.mockRun [.config .withHandler]).2 = [.registerWorker 1]
    ∧ JobWorkerMock.initMock.registrations = [] := by
  decide

namespace DecisionInstanceAssert

/-- Counterexample for C8: with the expected partial result mapping key
`a` to `undefined`, `hasResultContaining` succeeds against the empty
object even though `a` is not present in it — `result["a"] === undefined`
holds for an absent key. -/
theorem hasResultContaining_undef_counterexample :
    hasResultContainingPred [("a", Prim.undefined)] [] = true
    ∧ List.find? (fun kv => kv.1 = "a") ([] : List (String × Prim)) = none := by
  decide

lemma list_all_congr {α : Type} (l : List α) (f g : α → Bool)
    (h : ∀ x ∈ l, f x = g x) : l.all f = l.all g := by
  induction l with
  | nil => rfl
  | cons x rest ih =>
    simp only [List.all_cons]
    rw [h x (by simp), ih (fun y hy => h y (by simp [hy]))]

lemma lookupJs_of_mem {A : List (String × Prim)} {kv : String × Prim}
    (hnodup : (A.map Prod.fst).Nodup) (hmem : kv ∈ A) :
    lookupJs A kv.1 = kv.2 := by
  induction A with
  | nil => cases hmem
  | cons p rest ih =>
    rcases List.mem_cons.mp hmem with h | h
    · subst h
      simp [lookupJs, List.find?]
    · rcases p with ⟨pk, pv⟩
      have hkey : pk ≠ kv.1 := by
        intro hk
        have h1 : kv.1 ∈ rest.map Prod.fst := List.mem_map_of_mem Prod.fst h
        rw [← hk] at h1
        exact (List.nodup_cons.mp (by simpa using hnodup)).1 h1
      have hrest : (rest.map Prod.fst).Nodup :=
        (List.nodup_cons.mp (by simpa using hnodup)).2
      have hr := ih hrest h
      simp only [lookupJs, List.find?] at hr ⊢
      rw [decide_eq_false hkey]
      exact hr

lemma mem_of_lookupJs {A : List (String × Prim)} {k : String} {v : Prim}
    (hv : v ≠ Prim.undefined) (h : lookupJs A k = v) : (k, v) ∈ A := by
  induction A with
  | nil =>
    simp [lookupJs, List.find?] at h
    exact absurd h.symm hv
  | cons p rest ih =>
    rcases p with ⟨pk, pv⟩
    simp only [lookupJs, List.find?] at h
    by_cases hk : pk = k
    · rw [decide_eq_true hk] at h
      exact List.mem_cons.mpr (Or.inl (by rw [← hk, ← show pv = v from h]))
    · rw [decide_eq_false hk] at h
      exact List.mem_cons.mpr (Or.inr (ih h))

/-- Claim C8, amended: on an object result, `hasResultContaining` compares
only the keys named in the expected record: when no expected value is
`undefined` (and the actual object has JS-unique keys), it succeeds exactly
when every expected key is present in the actual object with a strictly
equal value; actual objects agreeing on the expected keys are
indistinguishable, so extra keys never affect the outcome. An expected
value of `undefined`, however, also matches an absent key (see the
counterexample), which is the only deviation from the claim. The two
concrete examples of the claim hold. -/
theorem hasResultContaining_partial_match (E A : List (String × Prim))
    (hnodup : (A.map Prod.fst).Nodup)
    (hvals : ∀ kv ∈ E, kv.2 ≠ Prim.undefined) :
    (hasResultContainingPred E A = true ↔ ∀ kv ∈ E, kv ∈ A)
    ∧ (∀ A' : List (String × Prim),
        (∀ kv ∈ E, lookupJs A' kv.1 = lookupJs A kv.1) →
        hasResultContainingPred E A' = hasResultContainingPred E A)
    ∧ hasResultContainingPred [("a", Prim.number 1)]
        [("a", Prim.number 1), ("b", Prim.number 2)] = true
    ∧ hasResultContainingPred [("a", Prim.number 1)]
        [("a", Prim.number 2), ("b", Prim.number 2)] = false := by
  refine ⟨?_, ?_, by decide, by decide⟩
  · constructor
    · intro h kv hkv
      have := (List.all_eq_true.mp h) kv hkv
      have heq : lookupJs A kv.1 = kv.2 := by
        simpa [strictEq] using this
      have := mem_of_lookupJs (hvals kv hkv) heq
      simpa using this
    · intro h
      refine List.all_eq_true.mpr ?_
      intro kv hkv
      have heq : lookupJs A kv.1 = kv.2 := lookupJs_of_mem hnodup (h kv hkv)
      simp [strictEq, heq]
  · intro A' hagree
    simp only [hasResultContainingPred]
    exact list_all_congr E _ _ (fun kv hkv => by rw [strictEq, strictEq, hagree kv hkv])

/-- Witness for C8: the amended characterization applied to the claim's own
example — `hasResultContaining({a: 1})` against `{a: 1, b: 2}`. -/
theorem hasResultContaining_partial_match_witness :
    hasResultContainingPred [("a", Prim.number 1)]
        [("a", Prim.number 1), ("b", Prim.number 2)] = true :=
  (hasResultContaining_partial_match [("a", Prim.number 1)]
    [("a", Prim.number 1), ("b", Prim.number 2)] (by decide) (by decide)).2.2.1

end DecisionInstanceAssert
